import Mathlib

/-!
Shallow embedding of the image-loop-player core (App.tsx + storage.ts):
the image collection and its handlers (add / remove / drag-reorder), the
interval clamp, the playback scheduler's two timing strategies, the
debounced session-save effect, and the startup session restore.
Machine numbers (`performance.now()` timestamps, interval milliseconds)
are modelled as `Int`; list indices as `Nat`.
-/

namespace ImageLoop

/-- Model of `ImageItem` from App.tsx: id, name, object URL, data URL. -/
structure ImageItem where
  id : String
  name : String
  url : String
  dataUrl : String
deriving DecidableEq

/-- Model of `SessionImage` from storage.ts: the persisted shape of one entry. -/
structure SessionImage where
  id : String
  name : String
  dataUrl : String
deriving DecidableEq

/-- Model of `SessionData` from storage.ts: the persisted snapshot shape. -/
structure SessionData where
  intervalMs : Int
  images : List SessionImage
deriving DecidableEq

def MIN_INTERVAL : Int := 16

def MAX_INTERVAL : Int := 10000

def MAX_IMAGES : Nat := 50

def SAVE_DEBOUNCE_MS : Int := 400

/-- The clamp `Math.min(Math.max(v, MIN_INTERVAL), MAX_INTERVAL)` used by
`clampedInterval`, `handleIntervalChange` and the load effect. -/
def clampInterval (v : Int) : Int := min (max v MIN_INTERVAL) MAX_INTERVAL

/-- The React state of `App` that the collection handlers touch. -/
structure AppState where
  images : List ImageItem
  intervalMs : Int
  isPlaying : Bool
  currentIndex : Nat
deriving DecidableEq

/-- The `useState` initial values: `[]`, `100`, `false`, `0`. -/
def initialState : AppState :=
  { images := [], intervalMs := 100, isPlaying := false, currentIndex := 0 }

/-- The `clampedInterval` memo: the clamp of the current `intervalMs` state. -/
def AppState.clampedInterval (s : AppState) : Int := clampInterval s.intervalMs

/-- Model of `handleIntervalChange`: clamps the incoming value and stores it. -/
def handleIntervalChange (s : AppState) (value : Int) : AppState :=
  { s with intervalMs := clampInterval value }

/-- Model of `handleRemove(id)`: filters out the entry with that id, then maps the
previous `currentIndex` to `0` when the remainder is empty or the index is
`≥` the new length, keeping it otherwise. -/
def handleRemove (s : AppState) (targetId : String) : AppState :=
  let next := s.images.filter (fun img => img.id ≠ targetId)
  let idx : Nat :=
    if next.length = 0 then 0
    else if next.length ≤ s.currentIndex then 0
    else s.currentIndex
  { s with images := next, currentIndex := idx }

/-- One raw file handed to `handleFiles` (name plus the data URL produced by
`fileToDataUrl` and the object URL produced by `URL.createObjectURL`). -/
structure FileDesc where
  name : String
  url : String
  dataUrl : String
deriving DecidableEq

/-- The `selected.map(...)` body of `handleFiles`: each accepted file becomes
an `ImageItem` with a fresh id (`crypto.randomUUID()`, modelled by the
supply `uuid`), in submission order. -/
def mkItems (uuid : Nat → String) : Nat → List FileDesc → List ImageItem
  | _, [] => []
  | i, f :: fs => ⟨uuid i, f.name, f.url, f.dataUrl⟩ :: mkItems uuid (i + 1) fs

/-- Model of `handleFiles(files)`: takes at most `Math.max(0, MAX_IMAGES - count)`
files (natural subtraction is that `max`), appends the converted items, and
leaves `currentIndex` alone (`idx >= 0 ? idx : 0` is the identity on `Nat`).
Returns the new state together with the number of rejected files; the
capacity alert fires exactly when that number is positive
(`selected.length < files.length`). -/
def handleFiles (uuid : Nat → String) (s : AppState) (files : Option (List FileDesc)) :
    AppState × Nat :=
  match files with
  | none => (s, 0)
  | some fs =>
    let available : Nat := MAX_IMAGES - s.images.length
    let selected := fs.take available
    let next := mkItems uuid 0 selected
    ({ s with images := s.images ++ next }, fs.length - selected.length)

/-- JS `arr.splice(start, 1)` on a list: the (possibly absent) removed
element and the remaining list; a `start` past the end removes nothing. -/
def jsSpliceRemoveOne (l : List α) (start : Nat) : Option α × List α :=
  let s := min start l.length
  ((l.drop s).head?, l.take s ++ l.drop (s + 1))

/-- JS `arr.splice(start, 0, x)` on a list: inserts `x` at `min start len`. -/
def jsSpliceInsertOne (l : List α) (start : Nat) (x : α) : List α :=
  let s := min start l.length
  l.take s ++ x :: l.drop s

/-- The `setImages` body of `onDragEnd` for non-null, distinct indices:
`splice(start, 1)` yields `moved` (JS `undefined`, i.e. `none`, when `start`
is past the end) and `splice(end, 0, moved)` inserts it back. The result
lives in `List (Option ImageItem)` because the code can insert `undefined`. -/
def onDragEndImages (prev : List α) (start stop : Nat) : List (Option α) :=
  let r := jsSpliceRemoveOne prev start
  jsSpliceInsertOne (r.2.map some) stop r.1

/-- The post-state of `onDragEnd`: the images array (entries wrapped in
`Option`, `some` = an actual item) and the current index. -/
structure DragResult (α : Type) where
  images : List (Option α)
  currentIndex : Nat
deriving DecidableEq

/-- Model of `onDragEnd`: reads and clears the two drag refs; returns early (no state
change) when either ref is null or they are equal, otherwise performs the
two splices and sets `currentIndex` to 0. -/
def onDragEnd (images : List α) (currentIndex : Nat)
    (dragItem dragOverItem : Option Nat) : DragResult α :=
  match dragItem, dragOverItem with
  | some start, some stop =>
    if start = stop then ⟨images.map some, currentIndex⟩
    else ⟨onDragEndImages images start stop, 0⟩
  | some _, none => ⟨images.map some, currentIndex⟩
  | none, _ => ⟨images.map some, currentIndex⟩

/-! ## Playback scheduler (the `[isPlaying, images.length, clampedInterval]`
effect, `clearTimers`, `handleStart`, `handleStop`)

The effect keeps at most one pending `setTimeout` callback (its id in
`timeoutRef`) and at most one pending `requestAnimationFrame` callback (its
id in `rafRef`); each callback reschedules itself and overwrites the ref, so
a `Bool` per kind is a faithful model of the pending-callback set. The rAF
`step` closure captures `isPlaying` from the render that scheduled it, which
is always `true` there, so its early-return guard never fires. -/

/-- The scheduler-facing state: play flag, displayed index, collection
length, the clamped interval, the rAF elapsed-time baseline (`start`), and
the two pending-callback flags. -/
structure SchedState where
  isPlaying : Bool
  currentIndex : Nat
  len : Nat
  interval : Int
  startTime : Int
  pendingTimeout : Bool
  pendingRaf : Bool
deriving DecidableEq

/-- Model of `clearTimers()`: `clearTimeout` + `cancelAnimationFrame`, nulling both
refs — both pending flags drop synchronously. -/
def clearTimers (s : SchedState) : SchedState :=
  { s with pendingTimeout := false, pendingRaf := false }

/-- Model of `handleStop()`: `setIsPlaying(false)` then `clearTimers()`. -/
def schedStop (s : SchedState) : SchedState :=
  clearTimers { s with isPlaying := false }

/-- The playback effect body at (re)run time `now`: stopped or empty
collection clears the timers; interval `≤ 32` schedules a rAF step with
baseline `now`; otherwise schedules a timeout. (React runs the previous
cleanup `clearTimers` first; scheduling one kind leaves the other cleared.) -/
def playbackEffect (s : SchedState) (now : Int) : SchedState :=
  if ¬ s.isPlaying ∨ s.len = 0 then clearTimers s
  else if s.interval ≤ 32 then
    { clearTimers s with pendingRaf := true, startTime := now }
  else
    { clearTimers s with pendingTimeout := true }

/-- One scheduler event: the pending timeout fires, or the pending rAF
callback runs at timestamp `now`. -/
inductive SchedEvent where
  | timeoutFires : SchedEvent
  | rafFires (now : Int) : SchedEvent
deriving DecidableEq

/-- Event semantics. A fired timeout runs `tick`: advance
`(idx + 1) % images.length` and reschedule at the same delay. A fired rAF
callback runs `step(now)`: advance and reset the baseline only when
`now - start ≥ clampedInterval`, and reschedule either way. A cancelled
callback (pending flag `false`) never runs. -/
def schedStep (s : SchedState) : SchedEvent → SchedState
  | .timeoutFires =>
    if s.pendingTimeout then
      { s with currentIndex := (s.currentIndex + 1) % s.len, pendingTimeout := true }
    else s
  | .rafFires now =>
    if s.pendingRaf then
      if s.interval ≤ now - s.startTime then
        { s with currentIndex := (s.currentIndex + 1) % s.len,
                 startTime := now, pendingRaf := true }
      else s
    else s

/-- Running a sequence of scheduler events. -/
def schedRun (s : SchedState) (evs : List SchedEvent) : SchedState :=
  evs.foldl schedStep s

/-! ## Debounced session save (the `[images, clampedInterval]` effect) -/

/-- The `saveSession` payload built by the debounced effect: the clamped
interval and the durable `{id, name, dataUrl}` projection of each image. -/
def savePayload (images : List ImageItem) (intervalMs : Int) : SessionData :=
  { intervalMs := clampInterval intervalMs,
    images := images.map fun img => ⟨img.id, img.name, img.dataUrl⟩ }

/-- The debounce machine over a time-ordered list of save requests
`(time, payload)`: each request arms a write at `time + 400`; a later
request arriving strictly inside the quiet window (`clearTimeout` in the
effect cleanup) cancels it. Returns the writes `(fire time, payload)` that
actually happen. -/
def debouncedWrites : List (Int × SessionData) → List (Int × SessionData)
  | [] => []
  | [r] => [(r.1 + SAVE_DEBOUNCE_MS, r.2)]
  | r :: r2 :: rest =>
    if r2.1 - r.1 < SAVE_DEBOUNCE_MS then debouncedWrites (r2 :: rest)
    else (r.1 + SAVE_DEBOUNCE_MS, r.2) :: debouncedWrites (r2 :: rest)

/-! ## Startup load effect and the save/load race -/

/-- The restore mapping of the load effect: at most the first `MAX_IMAGES`
stored entries, in persisted order, each rehydrated with a fresh object URL
(`dataUrlToObjectUrl`, modelled by `mkUrl`). -/
def restoreImages (mkUrl : SessionImage → String) (stored : List SessionImage) :
    List ImageItem :=
  (stored.take MAX_IMAGES).map fun img => ⟨img.id, img.name, mkUrl img, img.dataUrl⟩

/-- The interval restore `Math.min(Math.max(session.intervalMs ?? 100, MIN),
MAX)`; a snapshot missing the field (`none`) defaults to 100 before the
clamp. -/
def restoreInterval (stored : Option Int) : Int := clampInterval (stored.getD 100)

/-- Applying a settled `loadSession` result to the app state: `null` (or a
load failure) leaves the state alone; a stored session replaces the images
with the restored ones and the interval with its clamped value. -/
def applyLoad (mkUrl : SessionImage → String) (s : AppState)
    (session : Option SessionData) : AppState :=
  match session with
  | none => s
  | some sess =>
    { s with images := restoreImages mkUrl sess.images,
             intervalMs := restoreInterval (some sess.intervalMs) }

/-- The save requests the two startup effects issue when the app mounts at
time 0: the debounced save effect always arms a write of the initial
(empty) snapshot at mount; if a stored session exists and the load settles
at time `T`, the resulting state update re-runs the save effect at `T`
with the restored snapshot. There is no gate holding the first request back
until the load settles. -/
def startupSaveRequests (mkUrl : SessionImage → String)
    (stored : Option SessionData) (T : Int) : List (Int × SessionData) :=
  match stored with
  | none => [(0, savePayload initialState.images initialState.intervalMs)]
  | some sess =>
    [(0, savePayload initialState.images initialState.intervalMs),
     (T, let s := applyLoad mkUrl initialState (some sess)
         savePayload s.images s.intervalMs)]

/-- The first persistence write of an execution: mount at 0, load settling
at `T` (irrelevant when no session is stored). -/
def firstStartupWrite (mkUrl : SessionImage → String)
    (stored : Option SessionData) (T : Int) : Option (Int × SessionData) :=
  (debouncedWrites (startupSaveRequests mkUrl stored T)).head?

/-! ## Helper lemmas -/

theorem clampInterval_bounds (v : Int) :
    MIN_INTERVAL ≤ clampInterval v ∧ clampInterval v ≤ MAX_INTERVAL := by
  unfold clampInterval MIN_INTERVAL MAX_INTERVAL
  exact ⟨le_min (le_max_right _ _) (by norm_num), min_le_right _ _⟩

theorem mkItems_triples (uuid : Nat → String) (i : Nat) (fs : List FileDesc) :
    (mkItems uuid i fs).map (fun it => (it.name, it.url, it.dataUrl))
      = fs.map (fun f => (f.name, f.url, f.dataUrl)) := by
  induction fs generalizing i with
  | nil => rfl
  | cons f fs ih => simp [mkItems, ih]

theorem mkItems_length (uuid : Nat → String) (i : Nat) (fs : List FileDesc) :
    (mkItems uuid i fs).length = fs.length := by
  induction fs generalizing i with
  | nil => rfl
  | cons f fs ih => simp [mkItems, ih]

/-! ## Claim theorems -/

/-- C6: `intervalMs` is clamped to `[16, 10000]` at every write: the value
stored by `handleIntervalChange`, the value restored by the load effect
(including a missing stored field), the `intervalMs` field of every
persisted snapshot built by the save effect, and the initial state are all
inside the range, for every input value. -/
theorem interval_always_clamped :
    (∀ s v, MIN_INTERVAL ≤ (handleIntervalChange s v).intervalMs ∧
        (handleIntervalChange s v).intervalMs ≤ MAX_INTERVAL)
  ∧ (∀ stored, MIN_INTERVAL ≤ restoreInterval stored ∧
        restoreInterval stored ≤ MAX_INTERVAL)
  ∧ (∀ mkUrl s sess, MIN_INTERVAL ≤ (applyLoad mkUrl s (some sess)).intervalMs ∧
        (applyLoad mkUrl s (some sess)).intervalMs ≤ MAX_INTERVAL)
  ∧ (∀ imgs iv, MIN_INTERVAL ≤ (savePayload imgs iv).intervalMs ∧
        (savePayload imgs iv).intervalMs ≤ MAX_INTERVAL)
  ∧ (MIN_INTERVAL ≤ initialState.intervalMs ∧ initialState.intervalMs ≤ MAX_INTERVAL) := by
  refine ⟨fun s v => ?_, fun stored => ?_, fun mkUrl s sess => ?_, fun imgs iv => ?_, ?_⟩
  · exact clampInterval_bounds v
  · exact clampInterval_bounds _
  · exact clampInterval_bounds _
  · exact clampInterval_bounds iv
  · refine ⟨?_, ?_⟩ <;> norm_num [initialState, MIN_INTERVAL, MAX_INTERVAL]

/-- C10: restoring a stored session keeps at most the first `MAX_IMAGES`
entries, in persisted order (same `id`/`name`/`dataUrl` sequence as the
first 50 stored entries), so the restored length is `min 50 stored` and in
particular at most 50. -/
theorem restore_sliced_to_max (mkUrl : SessionImage → String) (s : AppState)
    (sess : SessionData) :
    (applyLoad mkUrl s (some sess)).images.length ≤ MAX_IMAGES
  ∧ (applyLoad mkUrl s (some sess)).images.length = min MAX_IMAGES sess.images.length
  ∧ (applyLoad mkUrl s (some sess)).images.map (fun it => (it.id, it.name, it.dataUrl))
      = (sess.images.take MAX_IMAGES).map (fun im => (im.id, im.name, im.dataUrl)) := by
  refine ⟨?_, ?_, ?_⟩
  · simp [applyLoad, restoreImages]
  · simp [applyLoad, restoreImages]
  · simp only [applyLoad, restoreImages, List.map_map]
    rfl

/-- C5: `handleFiles` accepts exactly the first `min(k, 50 - L)` submitted
files in submission order, appends them at the end, and reports the rest as
a rejected count; on a full collection (`L = 50`) zero are accepted, the
reported count equals the attempted count, and the length stays 50. -/
theorem add_capacity_bound (uuid : Nat → String) (s : AppState) (fs : List FileDesc) :
    (handleFiles uuid s (some fs)).1.images.length
      = s.images.length + min fs.length (MAX_IMAGES - s.images.length)
  ∧ (handleFiles uuid s (some fs)).1.images.map (fun it => (it.name, it.url, it.dataUrl))
      = s.images.map (fun it => (it.name, it.url, it.dataUrl))
        ++ (fs.take (MAX_IMAGES - s.images.length)).map (fun f => (f.name, f.url, f.dataUrl))
  ∧ (handleFiles uuid s (some fs)).2
      = fs.length - min fs.length (MAX_IMAGES - s.images.length)
  ∧ (handleFiles uuid s (some fs)).1.currentIndex = s.currentIndex
  ∧ (s.images.length = MAX_IMAGES →
      (handleFiles uuid s (some fs)).1.images = s.images
        ∧ (handleFiles uuid s (some fs)).2 = fs.length
        ∧ (handleFiles uuid s (some fs)).1.images.length = MAX_IMAGES) := by
  refine ⟨?_, ?_, ?_, rfl, fun hfull => ⟨?_, ?_, ?_⟩⟩
  · simp [handleFiles, mkItems_length, Nat.min_comm]
  · simp [handleFiles, mkItems_triples]
  · simp [handleFiles, Nat.min_comm]
  · simp [handleFiles, hfull, mkItems]
  · simp [handleFiles, hfull]
  · simp [handleFiles, hfull, mkItems]

/-! ## Concrete items for counterexamples and witnesses -/

def imgA : ImageItem := ⟨"a", "a.png", "blob-a", "data-a"⟩

def imgB : ImageItem := ⟨"b", "b.png", "blob-b", "data-b"⟩

def imgC : ImageItem := ⟨"c", "c.png", "blob-c", "data-c"⟩

def fileX : FileDesc := ⟨"x.png", "blob-x", "data-x"⟩

def fullState : AppState :=
  { images := List.replicate MAX_IMAGES imgA, intervalMs := 100,
    isPlaying := false, currentIndex := 0 }

/-- C5 witness: on a collection already holding 50 entries, submitting one
file accepts zero entries, leaves the collection at its 50 entries, and
reports 1 rejected. -/
theorem add_capacity_bound_witness :
    (handleFiles (fun _ => "u") fullState (some [fileX])).1.images = fullState.images
  ∧ (handleFiles (fun _ => "u") fullState (some [fileX])).2 = 1
  ∧ (handleFiles (fun _ => "u") fullState (some [fileX])).1.images.length = MAX_IMAGES := by
  have h := add_capacity_bound (fun _ => "u") fullState [fileX]
  have hfull : fullState.images.length = MAX_IMAGES := by
    simp [fullState]
  exact ⟨(h.2.2.2.2 hfull).1, (h.2.2.2.2 hfull).2.1, (h.2.2.2.2 hfull).2.2⟩

/-- C2 counterexample: with images `[imgA, imgB, imgC]` and `currentIndex =
1` (pointing at `imgB`), removing `"b"` — the currently displayed entry —
leaves `currentIndex = 1`, not 0 as the claim demands; and with
`currentIndex = 2`, removing the non-current `"a"` sets `currentIndex` to 0,
not to the claimed clamp `length - 1 = 1`. -/
theorem remove_current_keeps_index_cex :
    ([imgA, imgB, imgC].get? 1 = some imgB ∧ imgB.id = "b" ∧
      (handleRemove ⟨[imgA, imgB, imgC], 100, false, 1⟩ "b").currentIndex = 1)
  ∧ (imgA.id = "a" ∧
      (handleRemove ⟨[imgA, imgB, imgC], 100, false, 2⟩ "a").images.length = 2 ∧
      (handleRemove ⟨[imgA, imgB, imgC], 100, false, 2⟩ "a").currentIndex = 0) := by
  decide

/-- C2 amended: `handleRemove` filters by id; afterwards `currentIndex` is 0
whenever the shrunken collection is empty or no longer longer than the
previous index, and is unchanged whenever the previous index is still in
range — even when the removed entry is the one it pointed to; consequently
the index stays in `[0, length)` whenever the result is non-empty. -/
theorem remove_index_adjustment (s : AppState) (targetId : String) :
    (handleRemove s targetId).images = s.images.filter (fun img => img.id ≠ targetId)
  ∧ ((handleRemove s targetId).images ≠ [] →
      (handleRemove s targetId).currentIndex < (handleRemove s targetId).images.length)
  ∧ (s.currentIndex < (s.images.filter (fun img => img.id ≠ targetId)).length →
      (handleRemove s targetId).currentIndex = s.currentIndex)
  ∧ ((s.images.filter (fun img => img.id ≠ targetId)).length ≤ s.currentIndex →
      (handleRemove s targetId).currentIndex = 0) := by
  have himg : (handleRemove s targetId).images
      = s.images.filter (fun img => img.id ≠ targetId) := rfl
  have hcur : (handleRemove s targetId).currentIndex
      = (if (s.images.filter (fun img => img.id ≠ targetId)).length = 0 then 0
         else if (s.images.filter (fun img => img.id ≠ targetId)).length ≤ s.currentIndex
           then 0 else s.currentIndex) := rfl
  refine ⟨himg, ?_, ?_, ?_⟩
  · intro hne
    rw [himg] at hne ⊢
    rw [hcur]
    have hlen : (s.images.filter (fun img => img.id ≠ targetId)).length ≠ 0 := by
      simpa [List.length_eq_zero] using hne
    split_ifs <;> omega
  · intro hlt
    rw [hcur]
    split_ifs <;> omega
  · intro hge
    rw [hcur]
    split_ifs <;> omega

/-- C2 witness: removing the current entry `"a"` at index 0 from a 3-entry
collection leaves `currentIndex = 0` (still in range of the 2 remaining). -/
theorem remove_index_adjustment_witness :
    (handleRemove ⟨[imgA, imgB, imgC], 100, false, 0⟩ "a").currentIndex = 0 :=
  (remove_index_adjustment ⟨[imgA, imgB, imgC], 100, false, 0⟩ "a").2.2.1 (by decide)

/-- C3 counterexample: a drag with out-of-range `fromIndex = 2` on the
2-entry collection `[imgA, imgB]` is not a no-op: it inserts an `undefined`
entry (the array grows to length 3 with a `none` at the front) and resets
`currentIndex` from 1 to 0. -/
theorem reorder_out_of_range_not_noop_cex :
    (onDragEnd [imgA, imgB] 1 (some 2) (some 0)).images.length = 3
  ∧ (onDragEnd [imgA, imgB] 1 (some 2) (some 0)).images
      = [none, some imgA, some imgB]
  ∧ (onDragEnd [imgA, imgB] 1 (some 2) (some 0)).images ≠ [imgA, imgB].map some
  ∧ (onDragEnd [imgA, imgB] 1 (some 2) (some 0)).currentIndex = 0 := by
  decide

theorem jsSpliceInsertOne_length (l : List α) (j : Nat) (x : α) :
    (jsSpliceInsertOne l j x).length = l.length + 1 := by
  simp [jsSpliceInsertOne]
  omega

theorem jsSpliceRemoveOne_oob (l : List α) (i : Nat) (h : l.length ≤ i) :
    jsSpliceRemoveOne l i = (none, l) := by
  have hmin : min i l.length = l.length := Nat.min_eq_right h
  simp [jsSpliceRemoveOne, hmin, List.drop_length, List.take_length,
    List.drop_eq_nil_of_le (Nat.le_succ_of_le (le_refl l.length))]

theorem jsSpliceInsertOne_perm (l : List α) (j : Nat) (x : α) :
    (jsSpliceInsertOne l j x).Perm (x :: l) := by
  unfold jsSpliceInsertOne
  have h := @List.perm_middle _ x (l.take (min j l.length))
    (l.drop (min j l.length))
  simpa [List.take_append_drop] using h

theorem perm_getElem_eraseIdx (l : List α) (i : Nat) (hi : i < l.length) :
    l.Perm (l[i] :: l.eraseIdx i) := by
  conv_lhs => rw [← List.take_append_drop i l, List.drop_eq_getElem_cons hi]
  rw [List.eraseIdx_eq_take_drop_succ]
  exact List.perm_middle

theorem onDragEndImages_inRange (l : List α) (i j : Nat) (hi : i < l.length) :
    onDragEndImages l i j = (jsSpliceInsertOne (l.eraseIdx i) j l[i]).map some := by
  have hmin : min i l.length = i := Nat.min_eq_left (le_of_lt hi)
  simp only [onDragEndImages, jsSpliceRemoveOne, hmin]
  rw [List.head?_drop, List.getElem?_eq_getElem hi, List.eraseIdx_eq_take_drop_succ]
  simp [jsSpliceInsertOne, List.map_take, List.map_drop, List.map_append]

/-- C3 amended: `onDragEnd` with equal indices, or with either drag ref
null, is a no-op (images and `currentIndex` unchanged); but out-of-range
indices are not guarded: a `fromIndex` at or past the end inserts an
`undefined` entry (the array grows by one) and resets `currentIndex` to 0. -/
theorem reorder_noop_amended (l : List ImageItem) (cur i : Nat) (d : Option Nat) :
    onDragEnd l cur (some i) (some i) = ⟨l.map some, cur⟩
  ∧ onDragEnd l cur none d = ⟨l.map some, cur⟩
  ∧ onDragEnd l cur (some i) none = ⟨l.map some, cur⟩
  ∧ (∀ j, l.length ≤ i → i ≠ j →
      (onDragEnd l cur (some i) (some j)).images.length = l.length + 1
    ∧ (onDragEnd l cur (some i) (some j)).currentIndex = 0) := by
  refine ⟨by simp [onDragEnd], by cases d <;> simp [onDragEnd], by simp [onDragEnd], ?_⟩
  intro j hoob hne
  have hdrag : onDragEnd l cur (some i) (some j) = ⟨onDragEndImages l i j, 0⟩ := by
    simp [onDragEnd, hne]
  rw [hdrag]
  refine ⟨?_, rfl⟩
  show (onDragEndImages l i j).length = l.length + 1
  unfold onDragEndImages
  rw [jsSpliceRemoveOne_oob l i hoob]
  simp [jsSpliceInsertOne_length]

/-- C3 witness: on `[imgA, imgB]`, equal drag indices leave everything
unchanged, while the out-of-range index 2 grows the array to length 3. -/
theorem reorder_noop_amended_witness :
    onDragEnd [imgA, imgB] 1 (some 1) (some 1) = ⟨[imgA, imgB].map some, 1⟩
  ∧ (onDragEnd [imgA, imgB] 1 (some 2) (some 0)).images.length = 3 := by
  have h1 := reorder_noop_amended [imgA, imgB] 1 1 none
  have h2 := reorder_noop_amended [imgA, imgB] 1 2 none
  exact ⟨h1.1, (h2.2.2.2 0 (by decide) (by decide)).1⟩

/-- C4: for distinct in-range indices, `onDragEnd` produces an array of
actual (non-`undefined`) entries that is a permutation of the previous one
— same multiset, same length, only the order changes — and resets
`currentIndex` to 0. -/
theorem reorder_perm_resets_index (l : List ImageItem) (cur i j : Nat)
    (hi : i < l.length) (hj : j < l.length) (hij : i ≠ j) :
    (onDragEnd l cur (some i) (some j)).currentIndex = 0
  ∧ ∃ m : List ImageItem,
      (onDragEnd l cur (some i) (some j)).images = m.map some
    ∧ m.Perm l
    ∧ m.length = l.length := by
  have hdrag : onDragEnd l cur (some i) (some j) = ⟨onDragEndImages l i j, 0⟩ := by
    simp [onDragEnd, hij]
  have hperm : (jsSpliceInsertOne (l.eraseIdx i) j l[i]).Perm l :=
    (jsSpliceInsertOne_perm _ j _).trans (perm_getElem_eraseIdx l i hi).symm
  refine ⟨by rw [hdrag], jsSpliceInsertOne (l.eraseIdx i) j l[i], ?_, hperm,
    hperm.length_eq⟩
  rw [hdrag]
  exact onDragEndImages_inRange l i j hi

/-- C4 witness: dragging entry 0 of `[imgA, imgB, imgC]` to position 2
resets `currentIndex` and permutes the three entries. -/
theorem reorder_perm_resets_index_witness :
    (onDragEnd [imgA, imgB, imgC] 2 (some 0) (some 2)).currentIndex = 0
  ∧ ∃ m : List ImageItem,
      (onDragEnd [imgA, imgB, imgC] 2 (some 0) (some 2)).images = m.map some
    ∧ m.Perm [imgA, imgB, imgC]
    ∧ m.length = 3 :=
  reorder_perm_resets_index [imgA, imgB, imgC] 2 0 2 (by decide) (by decide)
    (by decide)

theorem schedRun_timeouts (n : Nat) :
    ∀ st : SchedState, st.pendingTimeout = true → st.currentIndex < st.len →
    schedRun st (List.replicate n .timeoutFires)
      = { st with currentIndex := (st.currentIndex + n) % st.len } := by
  induction n with
  | zero =>
    intro st hp hci
    simp [schedRun, Nat.mod_eq_of_lt hci]
  | succ n ih =>
    rintro ⟨pl, ci, ln, iv, t0, pt, pr⟩ hp hci
    simp only at hp hci
    subst hp
    have hlen : 0 < ln := lt_of_le_of_lt (Nat.zero_le ci) hci
    have hrun : schedRun ⟨pl, ci, ln, iv, t0, true, pr⟩
          (List.replicate (n + 1) .timeoutFires)
        = schedRun ⟨pl, (ci + 1) % ln, ln, iv, t0, true, pr⟩
          (List.replicate n .timeoutFires) := by
      simp [schedRun, List.replicate_succ, schedStep]
    rw [hrun, ih ⟨pl, (ci + 1) % ln, ln, iv, t0, true, pr⟩ rfl (Nat.mod_lt _ hlen)]
    have harith : ((ci + 1) % ln + n) % ln = (ci + (n + 1)) % ln := by
      rw [Nat.mod_add_mod]
      congr 1
      omega
    simp only [harith]

theorem schedRun_rafs (times : List Int) :
    ∀ st : SchedState, st.pendingRaf = true → st.currentIndex < st.len →
    List.Chain (fun t u => st.interval ≤ u - t) st.startTime times →
    schedRun st (times.map SchedEvent.rafFires)
      = { st with currentIndex := (st.currentIndex + times.length) % st.len,
                  startTime := times.getLastD st.startTime } := by
  induction times with
  | nil =>
    intro st hp hci hch
    simp [schedRun, Nat.mod_eq_of_lt hci]
  | cons t ts ih =>
    rintro ⟨pl, ci, ln, iv, t0, pt, pr⟩ hp hci hch
    simp only at hp hci
    subst hp
    have hlen : 0 < ln := lt_of_le_of_lt (Nat.zero_le ci) hci
    cases hch with
    | cons hlink hch =>
      have hrun : schedRun ⟨pl, ci, ln, iv, t0, pt, true⟩
            ((t :: ts).map SchedEvent.rafFires)
          = schedRun ⟨pl, (ci + 1) % ln, ln, iv, t, pt, true⟩
            (ts.map SchedEvent.rafFires) := by
        simp [schedRun, schedStep, hlink]
      rw [hrun, ih ⟨pl, (ci + 1) % ln, ln, iv, t, pt, true⟩ rfl (Nat.mod_lt _ hlen) hch]
      have harith : ((ci + 1) % ln + ts.length) % ln = (ci + (ts.length + 1)) % ln := by
        rw [Nat.mod_add_mod]
        congr 1
        omega
      simp only [harith, List.getLastD_cons, List.length_cons]

/-- C7: while playing over a non-empty collection, both timing strategies
advance the displayed index by exactly one position modulo the collection
length per fired advancement: (a) under the timer strategy, after `n` fired
ticks starting from index 0 the index is `n % len` (the sequence
`0, 1, ..., len - 1, 0, ...`); (b) a fired rAF callback advances by exactly
one modulo `len` when at least the interval has elapsed since the baseline
and leaves the index unchanged otherwise; (c) under the rAF strategy, over
`n` callbacks each at least the interval after the previous advance, the
index is again `n % len`. -/
theorem playback_advances_mod_len (st : SchedState) (n : Nat) (now : Int)
    (times : List Int) (h0 : st.currentIndex = 0) (hlen : 0 < st.len) :
    (st.pendingTimeout = true →
      (schedRun st (List.replicate n .timeoutFires)).currentIndex = n % st.len)
  ∧ (st.pendingRaf = true →
      (schedStep st (.rafFires now)).currentIndex
        = if st.interval ≤ now - st.startTime
          then (st.currentIndex + 1) % st.len else st.currentIndex)
  ∧ (st.pendingRaf = true →
      List.Chain (fun t u => st.interval ≤ u - t) st.startTime times →
      (schedRun st (times.map SchedEvent.rafFires)).currentIndex
        = times.length % st.len) := by
  refine ⟨fun hp => ?_, fun hp => ?_, fun hp hch => ?_⟩
  · rw [schedRun_timeouts n st hp (by omega)]
    simp [h0]
  · by_cases hc : st.interval ≤ now - st.startTime
    · simp [schedStep, hp, hc]
    · simp [schedStep, hp, hc]
  · rw [schedRun_rafs times st hp (by omega) hch]
    simp [h0]

def schedDemoTimer : SchedState :=
  { isPlaying := true, currentIndex := 0, len := 3, interval := 100,
    startTime := 0, pendingTimeout := true, pendingRaf := false }

def schedDemoRaf : SchedState :=
  { isPlaying := true, currentIndex := 0, len := 3, interval := 20,
    startTime := 0, pendingTimeout := false, pendingRaf := true }

/-- C7 witness: a timer-driven player of length 3 shows index `5 % 3 = 2`
after 5 ticks; an rAF-driven one (interval 20) shows `4 % 3 = 1` after
callbacks at 20, 40, 60, 80. -/
theorem playback_advances_mod_len_witness :
    (schedRun schedDemoTimer (List.replicate 5 .timeoutFires)).currentIndex = 2
  ∧ (schedRun schedDemoRaf ([20, 40, 60, 80].map SchedEvent.rafFires)).currentIndex
      = 1 := by
  have h1 := playback_advances_mod_len schedDemoTimer 5 0 [] rfl (by decide)
  have h2 := playback_advances_mod_len schedDemoRaf 0 0 [20, 40, 60, 80] rfl
    (by decide)
  refine ⟨?_, ?_⟩
  · simpa [schedDemoTimer] using h1.1 rfl
  · have hchain : List.Chain (fun t u => schedDemoRaf.interval ≤ u - t)
        schedDemoRaf.startTime [20, 40, 60, 80] :=
      List.Chain.cons (by decide) (List.Chain.cons (by decide)
        (List.Chain.cons (by decide) (List.Chain.cons (by decide) List.Chain.nil)))
    simpa [schedDemoRaf] using h2.2.2 rfl hchain

theorem schedStep_frozen (st : SchedState) (hpt : st.pendingTimeout = false)
    (hpr : st.pendingRaf = false) (e : SchedEvent) : schedStep st e = st := by
  cases e <;> simp [schedStep, hpt, hpr]

/-- C8: `handleStop` drops both pending-callback flags synchronously
(`clearTimeout` + `cancelAnimationFrame` on the held ids), and afterwards
any sequence of elapsed-time scheduler events leaves the whole state — in
particular `currentIndex` — unchanged, with playback off. -/
theorem stop_freezes_index (st : SchedState) (evs : List SchedEvent) :
    (schedStop st).pendingTimeout = false
  ∧ (schedStop st).pendingRaf = false
  ∧ schedRun (schedStop st) evs = schedStop st
  ∧ (schedRun (schedStop st) evs).currentIndex = st.currentIndex
  ∧ (schedRun (schedStop st) evs).isPlaying = false := by
  have hfix : ∀ evs2, schedRun (schedStop st) evs2 = schedStop st := by
    intro evs2
    induction evs2 with
    | nil => rfl
    | cons e es ihe =>
      show schedRun (schedStep (schedStop st) e) es = _
      rw [schedStep_frozen _ rfl rfl e]
      exact ihe
  refine ⟨rfl, rfl, hfix evs, ?_, ?_⟩
  · rw [hfix evs]
    rfl
  · rw [hfix evs]
    rfl

/-- C9: for a burst of save requests in which each request arrives strictly
within the 400 ms quiet window of the previous one, exactly one persistence
write happens: 400 ms after the last request, with the last request's
snapshot (each earlier pending write was cancelled by its successor). -/
theorem debounce_single_write (r : Int × SessionData)
    (rest : List (Int × SessionData))
    (hburst : List.Chain (fun a b => b.1 - a.1 < SAVE_DEBOUNCE_MS) r rest) :
    debouncedWrites (r :: rest)
      = [((rest.getLastD r).1 + SAVE_DEBOUNCE_MS, (rest.getLastD r).2)] := by
  induction rest generalizing r with
  | nil => rfl
  | cons r2 rest ih =>
    cases hburst with
    | cons hlink hch =>
      have heq : debouncedWrites (r :: r2 :: rest)
          = if r2.1 - r.1 < SAVE_DEBOUNCE_MS then debouncedWrites (r2 :: rest)
            else (r.1 + SAVE_DEBOUNCE_MS, r.2) :: debouncedWrites (r2 :: rest) := rfl
      rw [heq, if_pos hlink, ih r2 hch]
      simp [List.getLastD_cons, List.getLast?_cons]

def snapA : SessionData := ⟨100, []⟩

def snapB : SessionData := ⟨250, []⟩

def snapC : SessionData := ⟨500, [⟨"x", "x.png", "data-x"⟩]⟩

/-- C9 witness: three requests at 0, 100 and 350 ms (gaps 100 and 250, both
inside the 400 ms window) produce the single write `(750, snapC)`. -/
theorem debounce_single_write_witness :
    debouncedWrites [(0, snapA), (100, snapB), (350, snapC)] = [(750, snapC)] := by
  have h := debounce_single_write (0, snapA) [(100, snapB), (350, snapC)]
    (List.Chain.cons (by decide) (List.Chain.cons (by decide) List.Chain.nil))
  simpa [SAVE_DEBOUNCE_MS] using h

def demoStored : SessionData := ⟨250, [⟨"x", "x.png", "data-x"⟩]⟩

def demoUrl : SessionImage → String := fun img => img.dataUrl

/-- C1 (violated by the code): with a non-empty stored session whose load
settles 500 ms after mount, the first persistence write fires at t = 400 —
before the load has settled — and its payload is the initial empty
snapshot, i.e. exactly the startup overwrite the claim rules out. -/
theorem startup_save_races_load :
    firstStartupWrite demoUrl (some demoStored) 500
      = some (400, savePayload initialState.images initialState.intervalMs)
  ∧ (savePayload initialState.images initialState.intervalMs).images = []
  ∧ demoStored.images ≠ []
  ∧ (400 : Int) < 500 := by
  decide

end ImageLoop
